import Mathlib

/-!
Verification of the XPS glyph-run engine (font deobfuscation, encoding
selection, the Indices mini-language tokenizer and the glyph layout loop).

Strings from the C sources (`char *`) are modelled as `List Nat` of byte
values; the end of the list plays the role of the NUL terminator (reading
one byte past the end yields 0, matching `*s == 0`).  C `float` values are
modelled as exact rationals `ℚ`; C `int` as `Int`.
-/

/-- C `isdigit` restricted to the ASCII digits, as used by the source. -/
def isdigitB (c : Nat) : Bool := decide (48 ≤ c ∧ c ≤ 57)

/-- C `tolower` on ASCII bytes. -/
def tolowerB (c : Nat) : Nat := if 65 ≤ c ∧ c ≤ 90 then c + 32 else c

/-- C `isxdigit` on ASCII bytes: a decimal digit or a letter a-f / A-F. -/
def isxdigitB (c : Nat) : Bool :=
  isdigitB c || decide (97 ≤ c ∧ c ≤ 102) || decide (65 ≤ c ∧ c ≤ 70)

/-- `unhex` from the source: digit value, else `tolower(i) - 'a' + 10`. -/
def unhex (i : Nat) : Int :=
  if isdigitB i then (i : Int) - 48 else (tolowerB i : Int) - 97 + 10

/-- `strrchr(name, '/')` as used by `xps_deobfuscate_font_resource`: the
suffix of the name starting at the last `'/'` (byte 47), or the whole name
when there is no slash. -/
def finalSegment : List Nat → List Nat
  | [] => []
  | c :: rest => if 47 ∈ rest then finalSegment rest else c :: rest

/-- The GUID scan loop `for (i = 0; i < 32 && *p; p++) if (isxdigit(*p))
buf[i++] = *p;`: collect up to `n` hexadecimal digit bytes, in order. -/
def collectHex : List Nat → Nat → List Nat
  | _, 0 => []
  | [], _ + 1 => []
  | c :: rest, n + 1 =>
      if isxdigitB c then c :: collectHex rest n else collectHex rest (n + 1)

/-- Number of hexadecimal digit bytes in a byte string. -/
def countHexDigits (s : List Nat) : Nat := s.countP (fun c => isxdigitB c)

/-- Key derivation `key[i] = unhex(buf[i*2+0]) * 16 + unhex(buf[i*2+1])`;
the assignment to a `byte` reduces the value modulo 256. -/
def guidKey (buf : List Nat) (i : Nat) : Nat :=
  ((unhex (buf.getD (2 * i) 0) * 16 + unhex (buf.getD (2 * i + 1) 0)) % 256).toNat

/-- Effect of the XOR loop on the byte at offset `i`: bytes 0..15 are
XORed with `key[15-i]`, bytes 16..31 with `key[15-(i-16)] = key[31-i]`,
all later bytes are untouched. -/
def xorKeyAt (key : Nat → Nat) (i b : Nat) : Nat :=
  if i < 16 then b ^^^ key (15 - i)
  else if i < 32 then b ^^^ key (31 - i)
  else b

/-- Apply `xorKeyAt` to every byte of the data, the first byte having
offset `n` (the loop is entered with `n = 0`). -/
def applyMaskFrom (key : Nat → Nat) : Nat → List Nat → List Nat
  | _, [] => []
  | n, b :: rest => xorKeyAt key n b :: applyMaskFrom key (n + 1) rest

/-- `xps_deobfuscate_font_resource`: extract up to 32 hex digits from the
final path segment of the part name; if fewer than 32 were found, warn
(`true` flag) and leave the data untouched; otherwise build the 16-byte
key and XOR the first 32 data bytes.  Result: (new data, warned). -/
def xps_deobfuscate_font_resource (name data : List Nat) : List Nat × Bool :=
  let buf := collectHex (finalSegment name) 32
  if buf.length ≠ 32 then (data, true)
  else (applyMaskFrom (guidKey buf) 0 data, false)

/-- C `strstr(s, pat) != NULL`: `pat` occurs as a contiguous substring. -/
def strstrB (s pat : List Nat) : Bool :=
  if pat.isPrefixOf s then true
  else match s with
    | [] => false
    | _ :: rest => strstrB rest pat

/-- The byte string ".odttf". -/
def odttfLower : List Nat := [46, 111, 100, 116, 116, 102]

/-- The byte string ".ODTTF". -/
def odttfUpper : List Nat := [46, 79, 68, 84, 84, 70]

/-- The deobfuscation dispatch in `xps_parse_glyphs`:
`if (strstr(part->name, ".odttf")) xps_deobfuscate_font_resource(...);`
`if (strstr(part->name, ".ODTTF")) xps_deobfuscate_font_resource(...);`
applied in sequence to the resource data. -/
def xps_load_font_part (name data : List Nat) : List Nat :=
  let d1 := if strstrB name odttfLower then (xps_deobfuscate_font_resource name data).1 else data
  if strstrB name odttfUpper then (xps_deobfuscate_font_resource name d1).1 else d1

/-- ASCII lower-casing of a byte, for the spec-side comparison. -/
def lowerByte (c : Nat) : Nat := if 65 ≤ c ∧ c ≤ 90 then c + 32 else c

/-- Spec-side definition (from the spec's words, for comparison with the
source): the name, compared case-insensitively, ends in the pattern. -/
def endsWithCI (s pat : List Nat) : Bool :=
  (pat.map lowerByte).isSuffixOf (s.map lowerByte)

theorem collectHex_length (s : List Nat) :
    ∀ n, (collectHex s n).length = min n (countHexDigits s) := by
  induction s with
  | nil =>
    intro n
    cases n <;> simp [collectHex, countHexDigits]
  | cons c rest ih =>
    intro n
    cases n with
    | zero => simp [collectHex]
    | succ m =>
      by_cases h : isxdigitB c
      · simp [collectHex, h, countHexDigits, List.countP_cons, ih m]
        omega
      · simp [collectHex, h, countHexDigits, List.countP_cons, ih (m + 1)]

theorem applyMaskFrom_getD (key : Nat → Nat) (l : List Nat) :
    ∀ n i, (applyMaskFrom key n l).getD i 0 =
      if i < l.length then xorKeyAt key (n + i) (l.getD i 0) else 0 := by
  induction l with
  | nil => intro n i; simp [applyMaskFrom]
  | cons b rest ih =>
    intro n i
    cases i with
    | zero => simp [applyMaskFrom]
    | succ j =>
      have harith : n + 1 + j = n + (j + 1) := by omega
      have h2 := ih (n + 1) j
      rw [harith] at h2
      simpa [applyMaskFrom, List.getD_cons_succ] using h2

theorem applyMaskFrom_involution (key : Nat → Nat) (l : List Nat) :
    ∀ n, applyMaskFrom key n (applyMaskFrom key n l) = l := by
  induction l with
  | nil => intro n; simp [applyMaskFrom]
  | cons b rest ih =>
    intro n
    have hx : xorKeyAt key n (xorKeyAt key n b) = b := by
      unfold xorKeyAt
      by_cases h1 : n < 16
      · simp [h1, Nat.xor_assoc]
      · by_cases h2 : n < 32 <;> simp [h1, h2, Nat.xor_assoc]
    simp [applyMaskFrom, hx, ih]

theorem deobfuscate_twice (name data : List Nat) :
    (xps_deobfuscate_font_resource name
      (xps_deobfuscate_font_resource name data).1).1 = data := by
  unfold xps_deobfuscate_font_resource
  by_cases h : (collectHex (finalSegment name) 32).length ≠ 32
  · simp [h]
  · simp [h, applyMaskFrom_involution]

/-! ## Encoding selector -/

/-- The fixed priority list `xps_cmap_list` of (platform-id, encoding-id)
pairs, in source order. -/
def xps_cmap_list : List (Int × Int) :=
  [(3, 10), (3, 1), (3, 5), (3, 4), (3, 3), (3, 2), (3, 0), (1, 0)]

/-- The inner loop of the selector: first subtable index whose identified
(pid, eid) pair equals the wanted pair, in enumeration order. -/
def findPairIdx (pe : Int × Int) : List (Int × Int) → Option Nat
  | [] => none
  | e :: rest => if e = pe then some 0 else (findPairIdx pe rest).map (· + 1)

/-- The outer loop of `xps_select_best_font_encoding`: walk the priority
list, return the first subtable index matching the current entry. -/
def selectEncodingGo : List (Int × Int) → List (Int × Int) → Option Nat
  | [], _ => none
  | pe :: ps, encs =>
    match findPairIdx pe encs with
    | some i => some i
    | none => selectEncodingGo ps encs

/-- `xps_select_best_font_encoding`, with the font's encoding subtables
given (in enumeration order) as their (pid, eid) pairs; `some i` means
subtable `i` is selected, `none` means only a warning is emitted and no
encoding state changes. -/
def xps_select_best_font_encoding (encs : List (Int × Int)) : Option Nat :=
  selectEncodingGo xps_cmap_list encs

/-- Spec-side definition (from the spec's words): the first entry of the
priority list that is present among the font's subtable pairs at all. -/
def spec_best_pair (encs : List (Int × Int)) : Option (Int × Int) :=
  xps_cmap_list.find? (fun pe => decide (pe ∈ encs))

theorem findPairIdx_mem (pe : Int × Int) (encs : List (Int × Int)) (h : pe ∈ encs) :
    ∃ i, findPairIdx pe encs = some i := by
  induction encs with
  | nil => cases h
  | cons e rest ih =>
    by_cases he : e = pe
    · exact ⟨0, by simp [findPairIdx, he]⟩
    · have hm : pe ∈ rest := by
        cases List.mem_cons.mp h with
        | inl h0 => exact absurd h0.symm he
        | inr h0 => exact h0
      obtain ⟨i, hi⟩ := ih hm
      exact ⟨i + 1, by simp [findPairIdx, he, hi]⟩

theorem findPairIdx_not_mem (pe : Int × Int) (encs : List (Int × Int)) (h : pe ∉ encs) :
    findPairIdx pe encs = none := by
  induction encs with
  | nil => simp [findPairIdx]
  | cons e rest ih =>
    have he : ¬ e = pe := fun hh => h (hh ▸ List.mem_cons_self e rest)
    have hm : pe ∉ rest := fun hh => h (List.mem_cons_of_mem e hh)
    simp [findPairIdx, he, ih hm]

theorem findPairIdx_spec (pe : Int × Int) (encs : List (Int × Int)) :
    ∀ i, findPairIdx pe encs = some i →
      i < encs.length ∧ encs.getD i (0, 0) = pe ∧ ∀ j, j < i → encs.getD j (0, 0) ≠ pe := by
  induction encs with
  | nil => intro i h; simp [findPairIdx] at h
  | cons e rest ih =>
    intro i h
    by_cases he : e = pe
    · simp [findPairIdx, he] at h
      subst h
      exact ⟨by simp, by simpa using he, fun j hj => by omega⟩
    · simp [findPairIdx, he] at h
      obtain ⟨k, hk, hki⟩ := h
      obtain ⟨hlen, hget, hmin⟩ := ih k hk
      refine ⟨by simp; omega, by simpa [← hki] using hget, ?_⟩
      intro j hj
      cases j with
      | zero => simpa using he
      | succ m =>
        have : m < k := by omega
        simpa using hmin m this

/-! ## Mini-language tokenizer -/

/-- The loop of `xps_parse_digits` with its running accumulator. -/
def parseDigitsGo : List Nat → Int → List Nat × Int
  | [], acc => ([], acc)
  | c :: rest, acc =>
    if 48 ≤ c ∧ c ≤ 57 then parseDigitsGo rest (acc * 10 + ((c : Int) - 48))
    else (c :: rest, acc)

/-- `xps_parse_digits`: zero the output, then accumulate decimal digits;
returns (rest of string, value). -/
def xps_parse_digits (s : List Nat) : List Nat × Int := parseDigitsGo s 0

/-- `is_real_num_char`: digit, 'e', 'E', '+', '-' or '.'. -/
def is_real_num_char (c : Nat) : Bool :=
  decide (48 ≤ c ∧ c ≤ 57) || decide (c = 101) || decide (c = 69) ||
  decide (c = 43) || decide (c = 45) || decide (c = 46)

/-- Number of stores `xps_parse_real_num` performs into its 64-byte scratch
`char buf[64]`: the copy loop `while (is_real_num_char(*s)) *p++ = *s++;`
stores one byte per real-number character of the input prefix, and
`*p = 0;` stores one terminating NUL right after them.  The stores land at
`buf[0] .. buf[count-1]`, so they stay inside the buffer iff the result
is at most 64. -/
def realNumScratchWriteCount (s : List Nat) : Nat :=
  (s.takeWhile is_real_num_char).length + 1

/-- Model of the C library function `atof` (not part of this repository):
exact decimal-to-rational reading of an optional sign, integer digits, an
optional fraction and an optional exponent; returns 0 when no digits can
be read, as `atof` does. -/
def atofQ (s : List Nat) : ℚ :=
  let sign : ℚ := if s.headD 0 = 45 then -1 else 1
  let s1 := if s.headD 0 = 45 ∨ s.headD 0 = 43 then s.drop 1 else s
  let ip := s1.takeWhile (fun c => decide (48 ≤ c ∧ c ≤ 57))
  let s2 := s1.dropWhile (fun c => decide (48 ≤ c ∧ c ≤ 57))
  let fp := if s2.headD 0 = 46 then (s2.drop 1).takeWhile (fun c => decide (48 ≤ c ∧ c ≤ 57)) else []
  let s3 := if s2.headD 0 = 46 then (s2.drop 1).dropWhile (fun c => decide (48 ≤ c ∧ c ≤ 57)) else s2
  let mant : ℚ := (ip.foldl (fun a c => a * 10 + (c - 48)) 0 : Nat) +
    ((fp.foldl (fun a c => a * 10 + (c - 48)) 0 : Nat) : ℚ) / (10 : ℚ) ^ fp.length
  let ex : Int :=
    if s3.headD 0 = 101 ∨ s3.headD 0 = 69 then
      let t := s3.drop 1
      let esign : Int := if t.headD 0 = 45 then -1 else 1
      let t2 := if t.headD 0 = 45 ∨ t.headD 0 = 43 then t.drop 1 else t
      esign * ((t2.takeWhile (fun c => decide (48 ≤ c ∧ c ≤ 57))).foldl
        (fun a c => a * 10 + (c - 48)) 0 : Nat)
    else 0
  sign * mant * (10 : ℚ) ^ ex

/-- `xps_parse_real_num`: copy the run of real-number characters into the
scratch, NUL-terminate, and overwrite `*number` with `atof(buf)` only when
at least one character was copied. -/
def xps_parse_real_num (s : List Nat) (number : ℚ) : List Nat × ℚ :=
  let buf := s.takeWhile is_real_num_char
  let rest := s.dropWhile is_real_num_char
  (rest, if buf.isEmpty then number else atofQ buf)

/-- `xps_parse_cluster_mapping`: `"(" codeCount [":" glyphCount] ")"`,
each part optional; absent parts leave the caller's values. -/
def xps_parse_cluster_mapping (s : List Nat) (code_count glyph_count : Int) :
    List Nat × Int × Int :=
  let r1 := if s.headD 0 = 40 then xps_parse_digits (s.drop 1) else (s, code_count)
  let r2 := if r1.1.headD 0 = 58 then xps_parse_digits (r1.1.drop 1) else (r1.1, glyph_count)
  let s3 := if r2.1.headD 0 = 41 then r2.1.drop 1 else r2.1
  (s3, r1.2, r2.2)

/-- `xps_parse_glyph_index`: parse digits only when the next byte is a
digit; otherwise leave the caller's value (-1) untouched. -/
def xps_parse_glyph_index (s : List Nat) (glyph_index : Int) : List Nat × Int :=
  if 48 ≤ s.headD 0 ∧ s.headD 0 ≤ 57 then xps_parse_digits s else (s, glyph_index)

/-- `xps_parse_glyph_metrics`: `"," advance ["," uOffset ["," vOffset]]`,
each real-number field optional, absent fields keep the caller's values. -/
def xps_parse_glyph_metrics (s : List Nat) (advance uofs vofs : ℚ) :
    List Nat × ℚ × ℚ × ℚ :=
  let r1 := if s.headD 0 = 44 then xps_parse_real_num (s.drop 1) advance else (s, advance)
  let r2 := if r1.1.headD 0 = 44 then xps_parse_real_num (r1.1.drop 1) uofs else (r1.1, uofs)
  let r3 := if r2.1.headD 0 = 44 then xps_parse_real_num (r2.1.drop 1) vofs else (r2.1, vofs)
  (r3.1, r1.2, r2.2, r3.2)

/-! ## Glyph layout engine -/

/-- The external font collaborators consumed by `xps_parse_glyphs_imp`:
`xps_encode_font_char` (character code to glyph index) and
`xps_measure_font_glyph` (the metrics `hadv`, `vadv`, `vorg`). -/
structure FontModel where
  encode : Int → Int
  hadv : Int → ℚ
  vadv : Int → ℚ
  vorg : Int → ℚ

/-- One glyph as recorded by `fz_addtext(ctx->text, glyph_index,
char_code, e, f)`. -/
structure PlacedGlyph where
  glyph_index : Int
  char_code : Int
  e : ℚ
  f : ℚ
  deriving DecidableEq

/-- Modelled from the spec: `xps_utf8_to_ucs` is declared in a header that
is not among the provided source files; per the spec (section 4.3) the
Unicode string undergoes "UTF-8 decoding; each code point consumes 1+
bytes, reducing the remaining count".  Standard UTF-8: returns the decoded
code point and the number of bytes consumed (always at least 1; malformed
sequences consume 1 byte and yield the replacement value). -/
def xps_utf8_to_ucs (s : List Nat) : Int × Nat :=
  match s with
  | [] => (65533, 1)
  | b0 :: rest =>
    if b0 < 128 then ((b0 : Int), 1)
    else if 192 ≤ b0 ∧ b0 < 224 then
      match rest with
      | b1 :: _ => ((((b0 % 32) * 64 + b1 % 64 : Nat) : Int), 2)
      | [] => (65533, 1)
    else if 224 ≤ b0 ∧ b0 < 240 then
      match rest with
      | b1 :: b2 :: _ =>
          ((((b0 % 16) * 4096 + (b1 % 64) * 64 + b2 % 64 : Nat) : Int), 3)
      | _ => (65533, 1)
    else if 240 ≤ b0 then
      match rest with
      | b1 :: b2 :: b3 :: _ =>
          ((((b0 % 8) * 262144 + (b1 % 64) * 4096 + (b2 % 64) * 64 + b3 % 64 : Nat) : Int), 4)
      | _ => (65533, 1)
    else (65533, 1)

/-- The code points of a byte string, decoded one after the other with
`xps_utf8_to_ucs`, stopping after at most `n` code points: returns the
remaining bytes and the list of decoded code points. -/
def utf8ConsumeN : Nat → List Nat → List Nat × List Int
  | 0, l => (l, [])
  | n + 1, l =>
    if l.isEmpty then (l, [])
    else
      let r := xps_utf8_to_ucs l
      let rec' := utf8ConsumeN n (l.drop r.2)
      (rec'.1, r.1 :: rec'.2)

/-- The `while (code_count--)` loop of `xps_parse_glyphs_imp`: run the
decode step `code_count` times; each step decodes one code point into
`char_code` when the Unicode string is present and not exhausted, and
otherwise does nothing. -/
def consumeCodePoints : Nat → Option (List Nat) → Int → Option (List Nat) × Int
  | 0, us, cc => (us, cc)
  | n + 1, us, cc =>
    match us with
    | some u =>
      if u.isEmpty then consumeCodePoints n us cc
      else
        let r := xps_utf8_to_ucs u
        consumeCodePoints n (some (u.drop r.2)) r.1
    | none => consumeCodePoints n us cc

/-- Lines 210-222 of the source: the per-iteration defaults
`code_count = 1`, `glyph_count = 1`, the optional cluster-mapping parse,
and the clamps `if (code_count < 1) code_count = 1;`
`if (glyph_count < 1) glyph_count = 1;`. -/
def clusterHead (is : Option (List Nat)) : Option (List Nat) × Int × Int :=
  let r : Option (List Nat) × Int × Int :=
    match is with
    | some l =>
      if l.isEmpty then (is, 1, 1)
      else
        let p := xps_parse_cluster_mapping l 1 1
        (some p.1, p.2.1, p.2.2)
    | none => (is, 1, 1)
  (r.1, (if r.2.1 < 1 then 1 else r.2.1), (if r.2.2 < 1 then 1 else r.2.2))

/-- Lines 263-282 of the source: the right-to-left `u_offset` mirroring,
the `size/100` scaling of the offsets, the sideways/upright placement of
the glyph, and the pen advance.  Returns the new pen `x` and the glyph
handed to `fz_addtext`. -/
def placeGlyph (font : FontModel) (size : ℚ) (is_sideways : Bool) (bidi_level : Int)
    (glyph_index char_code : Int) (advance u_offset v_offset : ℚ) (x y : ℚ) :
    ℚ × PlacedGlyph :=
  let hadv := font.hadv glyph_index
  let u1 := if bidi_level % 2 = 1 then -hadv * 100 - u_offset else u_offset
  let u2 := u1 * 0.01 * size
  let v2 := v_offset * 0.01 * size
  let e := if is_sideways then x + u2 + font.vorg glyph_index * size else x + u2
  let f := if is_sideways then y - v2 + hadv * 0.5 * size else y - v2
  (x + advance * 0.01 * size, ⟨glyph_index, char_code, e, f⟩)

/-- One iteration of the `while (glyph_count--)` loop (lines 235-283):
optional glyph-index parse, fallback through `xps_encode_font_char`, the
metrics-derived default advance, the optional explicit metrics parse with
the `';'` separator skip, then `placeGlyph`. -/
def glyphStep (font : FontModel) (size : ℚ) (is_sideways : Bool) (bidi_level : Int)
    (is : Option (List Nat)) (char_code : Int) (x y : ℚ) :
    Option (List Nat) × ℚ × PlacedGlyph :=
  let r1 : Option (List Nat) × Int :=
    match is with
    | some l =>
      if l.isEmpty then (is, -1)
      else
        let p := xps_parse_glyph_index l (-1)
        (some p.1, p.2)
    | none => (is, -1)
  let glyph_index := if r1.2 = -1 then font.encode char_code else r1.2
  let hadv := font.hadv glyph_index
  let advance0 : ℚ :=
    if is_sideways then font.vadv glyph_index * 100
    else if bidi_level % 2 = 1 then -hadv * 100
    else hadv * 100
  let r2 : Option (List Nat) × ℚ × ℚ × ℚ :=
    match r1.1 with
    | some l =>
      if l.isEmpty then (r1.1, advance0, 0, 0)
      else
        let p := xps_parse_glyph_metrics l advance0 0 0
        let l2 := if p.1.headD 0 = 59 then p.1.drop 1 else p.1
        (some l2, p.2)
    | none => (r1.1, advance0, 0, 0)
  let pl := placeGlyph font size is_sideways bidi_level glyph_index char_code
    r2.2.1 r2.2.2.1 r2.2.2.2 x y
  (r2.1, pl.1, pl.2)

/-- The `while (glyph_count--)` loop: `n` glyph steps in sequence, all
sharing the cluster's single `char_code`; returns the rest of the Indices
string, the final pen `x` and the glyphs in placement order. -/
def glyphLoop (font : FontModel) (size : ℚ) (is_sideways : Bool) (bidi_level : Int) :
    Nat → Option (List Nat) → Int → ℚ → ℚ → Option (List Nat) × ℚ × List PlacedGlyph
  | 0, is, _, x, _ => (is, x, [])
  | n + 1, is, char_code, x, y =>
    let s := glyphStep font size is_sideways bidi_level is char_code x y
    let r := glyphLoop font size is_sideways bidi_level n s.1 char_code s.2.1 y
    (r.1, r.2.1, s.2.2 :: r.2.2)

/-- Whether `(us && un > 0)` holds for the Unicode cursor. -/
def usLive : Option (List Nat) → Bool
  | some u => decide (0 < u.length)
  | none => false

/-- Whether `(is && *is)` holds for the Indices cursor. -/
def isLive : Option (List Nat) → Bool
  | some l => !l.isEmpty
  | none => false

/-- The outer `while ((us && un > 0) || (is && *is))` loop of
`xps_parse_glyphs_imp`, with explicit fuel (the C loop does not terminate
on some garbage Indices strings, e.g. a bare "x"; every claim below is
stated for every fuel or for a sufficient concrete fuel). -/
def glyphsLoop (font : FontModel) (size : ℚ) (is_sideways : Bool) (bidi_level : Int) :
    Nat → Option (List Nat) → Option (List Nat) → ℚ → ℚ → List PlacedGlyph
  | 0, _, _, _, _ => []
  | fuel + 1, us, is, x, y =>
    if usLive us || isLive is then
      let c := clusterHead is
      let u := consumeCodePoints c.2.1.toNat us 63
      let g := glyphLoop font size is_sideways bidi_level c.2.2.toNat c.1 u.2 x y
      g.2.2 ++ glyphsLoop font size is_sideways bidi_level fuel u.1 g.1 g.2.1 y
    else []

/-- `xps_parse_glyphs_imp` (the text-run part): bail out with a warning
when neither Unicode nor Indices is present; skip a leading literal
byte pair 0x7b 0x7d of the Unicode string; then run the decoding loop
starting at the origin. -/
def xps_parse_glyphs_imp (font : FontModel) (size : ℚ) (originx originy : ℚ)
    (is_sideways : Bool) (bidi_level : Int)
    (indices unicode : Option (List Nat)) (fuel : Nat) : Option (List PlacedGlyph) :=
  match indices, unicode with
  | none, none => none
  | _, _ =>
    let us := unicode.map (fun u => if u.headD 0 = 123 ∧ u.getD 1 0 = 125 then u.drop 2 else u)
    some (glyphsLoop font size is_sideways bidi_level fuel us indices originx originy)

/-! ## Helper lemmas about the layout loops -/

theorem glyphsLoop_done (font : FontModel) (size : ℚ) (sw : Bool) (bl : Int)
    (f : Nat) (x y : ℚ) : glyphsLoop font size sw bl f (some []) none x y = [] := by
  cases f <;> simp [glyphsLoop, usLive, isLive]

theorem consumeCodePoints_stuck (n : Nat) :
    ∀ us cc, (us = none ∨ us = some []) → consumeCodePoints n us cc = (us, cc) := by
  induction n with
  | zero => intro us cc _; rfl
  | succ m ih =>
    intro us cc h
    cases h with
    | inl h0 => subst h0; simpa [consumeCodePoints] using ih none cc (Or.inl rfl)
    | inr h0 => subst h0; simpa [consumeCodePoints] using ih (some []) cc (Or.inr rfl)

theorem glyphStep_char_code (font : FontModel) (size : ℚ) (sw : Bool) (bl : Int)
    (is : Option (List Nat)) (cc : Int) (x y : ℚ) :
    (glyphStep font size sw bl is cc x y).2.2.char_code = cc := by
  cases is with
  | none => rfl
  | some l =>
    by_cases h : l.isEmpty <;> simp [glyphStep, placeGlyph, h]

theorem glyphLoop_char_code (font : FontModel) (size : ℚ) (sw : Bool) (bl : Int) :
    ∀ (n : Nat) (is : Option (List Nat)) (cc : Int) (x y : ℚ),
      ∀ g ∈ (glyphLoop font size sw bl n is cc x y).2.2, g.char_code = cc := by
  intro n
  induction n with
  | zero => intro is cc x y g hg; simp [glyphLoop] at hg
  | succ m ih =>
    intro is cc x y g hg
    simp only [glyphLoop, List.mem_cons] at hg
    cases hg with
    | inl h0 => rw [h0]; exact glyphStep_char_code font size sw bl is cc x y
    | inr h0 => exact ih _ cc _ y g h0

theorem glyphStep_none (font : FontModel) (size : ℚ) (sw : Bool) (bl : Int)
    (cc : Int) (x y : ℚ) :
    (glyphStep font size sw bl none cc x y).1 = none ∧
    (glyphStep font size sw bl none cc x y).2.2.glyph_index = font.encode cc := by
  constructor <;> rfl

theorem glyphLoop_none (font : FontModel) (size : ℚ) (sw : Bool) (bl : Int) :
    ∀ (n : Nat) (cc : Int) (x y : ℚ),
      (glyphLoop font size sw bl n none cc x y).1 = none ∧
      ∀ g ∈ (glyphLoop font size sw bl n none cc x y).2.2,
        g.char_code = cc ∧ g.glyph_index = font.encode cc := by
  intro n
  induction n with
  | zero => intro cc x y; exact ⟨rfl, by simp [glyphLoop]⟩
  | succ m ih =>
    intro cc x y
    have hs := glyphStep_none font size sw bl cc x y
    constructor
    · simp only [glyphLoop, hs.1]
      exact (ih cc _ y).1
    · intro g hg
      simp only [glyphLoop, List.mem_cons] at hg
      cases hg with
      | inl h0 =>
        rw [h0]
        exact ⟨glyphStep_char_code font size sw bl none cc x y, hs.2⟩
      | inr h0 =>
        have := (ih cc ((glyphStep font size sw bl none cc x y).2.1) y).2
        rw [hs.1] at h0
        exact this g h0

/-! ## Claim theorems -/

/-- C1 (refuted; code bug): the claim says the real-number scanner copies
at most a bounded number of characters into the 64-byte scratch
`char buf[64]` and truncates or fails on longer runs.  The copy loop of
`xps_parse_real_num` has no bound at all: on a run of `n` real-number
characters it performs `n + 1` stores (the copied bytes plus the
terminating NUL) at `buf[0] .. buf[n]`, so already a run of 64 digit
characters stores a byte at index 64, one past the end of the buffer. -/
theorem xps_parse_real_num_scratch_overflow :
    (∀ n, realNumScratchWriteCount (List.replicate n 49) = n + 1)
  ∧ ¬ realNumScratchWriteCount (List.replicate 64 49) ≤ 64 := by
  have hrep : ∀ n, (List.replicate n 49).takeWhile is_real_num_char = List.replicate n 49 := by
    intro n
    induction n with
    | zero => rfl
    | succ m ih => simp [List.replicate_succ, List.takeWhile_cons, is_real_num_char, ih]
  constructor
  · intro n
    simp [realNumScratchWriteCount, hrep n]
  · simp only [realNumScratchWriteCount, hrep 64, List.length_replicate]
    omega

/-- C2: when the final path segment of the part name holds at least 32
hexadecimal digit characters, deobfuscation succeeds (no warning), builds
the key byte `j` from the collected hex digits `2j` (high nibble) and
`2j+1` (low nibble), XORs data byte `i` (for `i < 16`) and data byte
`i + 16` with key byte `15 - i`, and leaves every byte at offset 32 or
beyond unchanged. -/
theorem xps_deobfuscate_font_resource_correct (name data : List Nat)
    (h1 : 32 ≤ countHexDigits (finalSegment name)) (h2 : 32 ≤ data.length) :
    (∀ i, i < 16 →
        (xps_deobfuscate_font_resource name data).1.getD i 0
          = data.getD i 0 ^^^ guidKey (collectHex (finalSegment name) 32) (15 - i))
  ∧ (∀ i, i < 16 →
        (xps_deobfuscate_font_resource name data).1.getD (i + 16) 0
          = data.getD (i + 16) 0 ^^^ guidKey (collectHex (finalSegment name) 32) (15 - i))
  ∧ (∀ j, 32 ≤ j →
        (xps_deobfuscate_font_resource name data).1.getD j 0 = data.getD j 0)
  ∧ (xps_deobfuscate_font_resource name data).2 = false := by
  have hlen : (collectHex (finalSegment name) 32).length = 32 := by
    rw [collectHex_length]; omega
  have hres : xps_deobfuscate_font_resource name data
      = (applyMaskFrom (guidKey (collectHex (finalSegment name) 32)) 0 data, false) := by
    unfold xps_deobfuscate_font_resource
    simp [hlen]
  refine ⟨?_, ?_, ?_, by rw [hres]⟩
  · intro i hi
    rw [hres]
    have := applyMaskFrom_getD (guidKey (collectHex (finalSegment name) 32)) data 0 i
    rw [this]
    have hil : i < data.length := by omega
    simp [hil, xorKeyAt, hi]
  · intro i hi
    rw [hres]
    have := applyMaskFrom_getD (guidKey (collectHex (finalSegment name) 32)) data 0 (i + 16)
    rw [this]
    have hil : i + 16 < data.length := by omega
    have hlt : ¬ (i + 16 < 16) := by omega
    have hlt2 : i + 16 < 32 := by omega
    have harg : 31 - (i + 16) = 15 - i := by omega
    simp [hil, xorKeyAt, hlt, hlt2, harg]
  · intro j hj
    rw [hres]
    have := applyMaskFrom_getD (guidKey (collectHex (finalSegment name) 32)) data 0 j
    rw [this]
    by_cases hjl : j < data.length
    · have hlt : ¬ (j < 16) := by omega
      have hlt2 : ¬ (j < 32) := by omega
      simp [hjl, xorKeyAt, hlt, hlt2]
    · have hlej : data.length ≤ j := by omega
      rw [if_neg hjl, List.getD_eq_default _ _ hlej]

/-- Part name used by the C2 witness: 32 decimal digits (all hex). -/
def w2name : List Nat := (List.range 32).map (fun i => 48 + i % 10)

/-- Data used by the C2 witness: the bytes 0..39. -/
def w2data : List Nat := List.range 40

theorem xps_deobfuscate_font_resource_correct_witness :
    32 ≤ countHexDigits (finalSegment w2name) ∧ 32 ≤ w2data.length ∧
    (xps_deobfuscate_font_resource w2name w2data).1.getD 0 0
      = w2data.getD 0 0 ^^^ guidKey (collectHex (finalSegment w2name) 32) 15 ∧
    (xps_deobfuscate_font_resource w2name w2data).1.getD 35 0 = w2data.getD 35 0 :=
  ⟨by decide, by decide,
    (xps_deobfuscate_font_resource_correct w2name w2data (by decide) (by decide)).1 0
      (by decide),
    (xps_deobfuscate_font_resource_correct w2name w2data (by decide) (by decide)).2.2.1 35
      (by decide)⟩

/-- C8: when the final path segment of the part name holds fewer than 32
hexadecimal digit characters, deobfuscation warns (the malformed-key
failure) and returns the resource data exactly as it was. -/
theorem xps_deobfuscate_malformed_guid (name data : List Nat)
    (h : countHexDigits (finalSegment name) < 32) :
    xps_deobfuscate_font_resource name data = (data, true) := by
  have hlen : (collectHex (finalSegment name) 32).length ≠ 32 := by
    rw [collectHex_length]; omega
  unfold xps_deobfuscate_font_resource
  simp [hlen]

/-- Part name used by the C8 witness: "abc.odttf" (5 hex digits). -/
def w8name : List Nat := [97, 98, 99, 46, 111, 100, 116, 116, 102]

theorem xps_deobfuscate_malformed_guid_witness :
    countHexDigits (finalSegment w8name) < 32 ∧
    xps_deobfuscate_font_resource w8name [1, 2, 3] = ([1, 2, 3], true) :=
  ⟨by decide, xps_deobfuscate_malformed_guid w8name [1, 2, 3] (by decide)⟩

theorem selectEncodingGo_spec (encs : List (Int × Int)) :
    ∀ L : List (Int × Int),
      (∀ pe, L.find? (fun q => decide (q ∈ encs)) = some pe →
        ∃ i, selectEncodingGo L encs = some i ∧ i < encs.length ∧
          encs.getD i (0, 0) = pe ∧ ∀ j, j < i → encs.getD j (0, 0) ≠ pe)
    ∧ (L.find? (fun q => decide (q ∈ encs)) = none → selectEncodingGo L encs = none) := by
  intro L
  induction L with
  | nil =>
    refine ⟨fun pe h => ?_, fun _ => rfl⟩
    simp at h
  | cons p ps ih =>
    by_cases hp : p ∈ encs
    · refine ⟨fun pe h => ?_, fun h => ?_⟩
      · rw [List.find?_cons_of_pos _ (by simpa using hp)] at h
        have hpe : p = pe := by injection h
        subst hpe
        obtain ⟨i, hi⟩ := findPairIdx_mem p encs hp
        obtain ⟨hlen, hget, hmin⟩ := findPairIdx_spec p encs i hi
        refine ⟨i, ?_, hlen, hget, hmin⟩
        simp [selectEncodingGo, hi]
      · rw [List.find?_cons_of_pos _ (by simpa using hp)] at h
        cases h
    · refine ⟨fun pe h => ?_, fun h => ?_⟩
      · rw [List.find?_cons_of_neg _ (by simpa using hp)] at h
        obtain ⟨i, hi, hlen, hget, hmin⟩ := ih.1 pe h
        refine ⟨i, ?_, hlen, hget, hmin⟩
        simp [selectEncodingGo, findPairIdx_not_mem p encs hp, hi]
      · rw [List.find?_cons_of_neg _ (by simpa using hp)] at h
        simp [selectEncodingGo, findPairIdx_not_mem p encs hp, ih.2 h]

theorem spec_best_pair_perm (encs encs2 : List (Int × Int)) (h : encs.Perm encs2) :
    spec_best_pair encs = spec_best_pair encs2 := by
  unfold spec_best_pair
  have hgen : ∀ L : List (Int × Int),
      L.find? (fun q => decide (q ∈ encs)) = L.find? (fun q => decide (q ∈ encs2)) := by
    intro L
    induction L with
    | nil => rfl
    | cons p ps ih =>
      have hb : decide (p ∈ encs) = decide (p ∈ encs2) :=
        decide_eq_decide.mpr h.mem_iff
      simp [List.find?_cons, hb, ih]
  exact hgen xps_cmap_list

/-- C5: the selector walks the fixed priority list (3,10), (3,1), (3,5),
(3,4), (3,3), (3,2), (3,0), (1,0) in order and picks the first subtable
whose pair matches the earliest present entry (the subtable chosen is the
first one, in enumeration order, carrying that pair); the chosen pair does
not depend on the enumeration order of the subtables; a font exposing
exactly the subtables (1,0) and (3,1) always gets the (3,1) subtable; and
when no subtable matches any entry, no selection happens (only a warning
is emitted). -/
theorem xps_select_best_font_encoding_priority (encs : List (Int × Int)) :
    (∀ pe, spec_best_pair encs = some pe →
        ∃ i, xps_select_best_font_encoding encs = some i ∧ i < encs.length ∧
          encs.getD i (0, 0) = pe ∧ ∀ j, j < i → encs.getD j (0, 0) ≠ pe)
  ∧ (spec_best_pair encs = none → xps_select_best_font_encoding encs = none)
  ∧ (∀ encs2, encs.Perm encs2 → spec_best_pair encs = spec_best_pair encs2)
  ∧ (encs.Perm [((1 : Int), (0 : Int)), ((3 : Int), (1 : Int))] →
      ∃ i, xps_select_best_font_encoding encs = some i ∧
        encs.getD i (0, 0) = ((3 : Int), (1 : Int))) := by
  have hgo := selectEncodingGo_spec encs xps_cmap_list
  refine ⟨hgo.1, hgo.2, fun encs2 h => spec_best_pair_perm encs encs2 h, fun h => ?_⟩
  have h31 : spec_best_pair encs = some (3, 1) := by
    rw [spec_best_pair_perm encs _ h]
    decide
  obtain ⟨i, hi, _, hget, _⟩ := hgo.1 (3, 1) h31
  exact ⟨i, hi, hget⟩

theorem xps_select_best_font_encoding_priority_witness :
    [((1 : Int), (0 : Int)), ((3 : Int), (1 : Int))].Perm
      [((1 : Int), (0 : Int)), ((3 : Int), (1 : Int))] ∧
    (∃ i, xps_select_best_font_encoding [((1 : Int), (0 : Int)), ((3 : Int), (1 : Int))] = some i ∧
      [((1 : Int), (0 : Int)), ((3 : Int), (1 : Int))].getD i (0, 0) = ((3 : Int), (1 : Int))) ∧
    xps_select_best_font_encoding [((1 : Int), (0 : Int)), ((3 : Int), (1 : Int))] = some 1 :=
  ⟨List.Perm.refl _,
    (xps_select_best_font_encoding_priority _).2.2.2 (List.Perm.refl _),
    by decide⟩

/-- Name for the C4 counterexample: 32 hex digits followed by ".Odttf", a
case-insensitive match of the obfuscated-font suffix in mixed case. -/
def c4name : List Nat := (List.replicate 16 [97, 98]).flatten ++ [46, 79, 100, 116, 116, 102]

/-- Data for the C4 counterexample (32 zero bytes, so a successful
deobfuscation would visibly change it). -/
def c4data : List Nat := List.replicate 32 0

/-- C4 counterexample: the claim says deobfuscation is applied exactly to
names that end, case-insensitively, in ".odttf".  The name here is such a
suffix match (it ends in ".Odttf"), its final segment carries a full
32-hex-digit key and deobfuscation would change the data, yet the loader
leaves the data untouched: the dispatch tests `strstr` with the two
exact-case patterns ".odttf" and ".ODTTF" only, and neither occurs. -/
theorem odttf_suffix_counterexample :
    endsWithCI c4name odttfLower = true
  ∧ xps_load_font_part c4name c4data = c4data
  ∧ (xps_deobfuscate_font_resource c4name c4data).1 ≠ c4data := by decide

/-- C4 amended: the loader applies deobfuscation once for each of the two
exact-case substrings ".odttf" and ".ODTTF" occurring anywhere in the
resource name (a substring test, not a case-insensitive suffix test):
exactly one application when exactly one of the two occurs, none when
neither occurs, and two cancelling applications (the data comes back
byte-for-byte identical) when both occur. -/
theorem odttf_substring_dispatch (name data : List Nat) :
    (strstrB name odttfLower = true → strstrB name odttfUpper = false →
      xps_load_font_part name data = (xps_deobfuscate_font_resource name data).1)
  ∧ (strstrB name odttfLower = false → strstrB name odttfUpper = true →
      xps_load_font_part name data = (xps_deobfuscate_font_resource name data).1)
  ∧ (strstrB name odttfLower = false → strstrB name odttfUpper = false →
      xps_load_font_part name data = data)
  ∧ (strstrB name odttfLower = true → strstrB name odttfUpper = true →
      xps_load_font_part name data = data) := by
  refine ⟨?_, ?_, ?_, ?_⟩ <;> intro h1 h2 <;>
    simp [xps_load_font_part, h1, h2, deobfuscate_twice]

/-- Name for the C4 witness: "x.odttf.ODTTF" holds both exact-case
patterns, so deobfuscation runs twice and cancels. -/
def c4bothname : List Nat := [120] ++ odttfLower ++ odttfUpper

theorem odttf_substring_dispatch_witness :
    strstrB c4bothname odttfLower = true ∧ strstrB c4bothname odttfUpper = true ∧
    xps_load_font_part c4bothname [1, 2] = [1, 2] :=
  ⟨by decide, by decide,
    (odttf_substring_dispatch c4bothname [1, 2]).2.2.2 (by decide) (by decide)⟩

/-- C3: with `is_sideways` false and an odd `bidi_level`, the `u_offset`
entering the placement is `-hadv*100 - u_offset` (the mirroring happens
before the `size/100` scaling), and when the token supplies no explicit
advance the pen advance is the exact negation of the advance computed for
the same glyph under an even `bidi_level`. -/
theorem glyphs_rtl_mirroring (font : FontModel) (size : ℚ) :
    (∀ (bl gi cc : Int) (advance u v x y : ℚ), bl % 2 = 1 →
        ((placeGlyph font size false bl gi cc advance u v x y).2).e
          = x + (-(font.hadv gi) * 100 - u) * 0.01 * size)
  ∧ (∀ (bl bl' cc : Int) (x y : ℚ), bl % 2 = 1 → bl' % 2 = 0 →
        (glyphStep font size false bl none cc x y).2.1 - x
          = -((glyphStep font size false bl' none cc x y).2.1 - x)) := by
  constructor
  · intro bl gi cc advance u v x y hodd
    simp [placeGlyph, hodd]
  · intro bl bl' cc x y hodd heven
    have hne : ¬ (bl' % 2 = 1) := by omega
    simp [glyphStep, placeGlyph, hodd, hne]

/-- Font used by the C3 witness. -/
def w3font : FontModel := ⟨fun _ => 7, fun _ => 2, fun _ => 0, fun _ => 3⟩

theorem glyphs_rtl_mirroring_witness :
    ((1 : Int) % 2 = 1 ∧ (0 : Int) % 2 = 0) ∧
    ((placeGlyph w3font 10 false 1 7 65 50 4 0 100 0).2).e
      = 100 + (-(w3font.hadv 7) * 100 - 4) * 0.01 * 10 ∧
    (glyphStep w3font 10 false 1 none 65 100 0).2.1 - 100
      = -((glyphStep w3font 10 false 0 none 65 100 0).2.1 - 100) :=
  ⟨⟨by decide, by decide⟩,
    (glyphs_rtl_mirroring w3font 10).1 1 7 65 50 4 0 100 0 (by decide),
    (glyphs_rtl_mirroring w3font 10).2 1 0 65 100 0 (by decide) (by decide)⟩

/-- Font used by the C6 end-to-end run: horizontal advance 0.5 em for
every glyph, identity character-to-glyph encoding. -/
def c6font : FontModel := ⟨fun c => c, fun _ => 1 / 2, fun _ => 0, fun _ => 0⟩

/-- C6: with UnicodeString "AB", no Indices, upright text, bidi level 0, a
font advancing 0.5 em per glyph, size 10 and origin (0,0), the run is
exactly two glyphs, placed at (0,0) and (5,0): the pen moves by
`advance * size/100 = 0.5*100 * 10/100 = 5` after the first glyph. -/
theorem glyphs_end_to_end_AB (f : Nat) :
    xps_parse_glyphs_imp c6font 10 0 0 false 0 none (some [65, 66]) (f + 2)
      = some [⟨65, 65, 0, 0⟩, ⟨66, 66, 5, 0⟩] := by
  simp [xps_parse_glyphs_imp, glyphsLoop, usLive, isLive, clusterHead,
    consumeCodePoints, xps_utf8_to_ucs, glyphLoop, glyphStep, placeGlyph, c6font]
  norm_num
  exact glyphsLoop_done _ 10 false 0 f 10 0

/-- C7: every cluster head (counts defaulted to 1, the optional mapping
parse, then the two clamps) yields code and glyph counts that are at
least 1; unspecified mappings give exactly (1,1); an explicit "(0:0)"
is clamped to (1,1) before the decode loops run. -/
theorem cluster_mapping_defaults :
    (∀ is, 1 ≤ (clusterHead is).2.1 ∧ 1 ≤ (clusterHead is).2.2)
  ∧ clusterHead none = (none, 1, 1)
  ∧ (∀ l : List Nat, l.headD 0 ≠ 40 → l.headD 0 ≠ 58 →
      (clusterHead (some l)).2.1 = 1 ∧ (clusterHead (some l)).2.2 = 1)
  ∧ clusterHead (some [40, 48, 58, 48, 41]) = (some [], 1, 1) := by
  refine ⟨?_, by decide, ?_, by decide⟩
  · intro is
    unfold clusterHead
    cases is with
    | none => simp
    | some l =>
      by_cases h : l.isEmpty
      · simp [h]
      · simp only [h]
        constructor <;> simp <;> split <;> omega
  · intro l h1 h2
    simp only [List.headD_eq_head?_getD] at h1 h2
    by_cases h : l.isEmpty
    · simp [clusterHead, h]
    · simp [clusterHead, h, xps_parse_cluster_mapping, h1, h2]

theorem cluster_mapping_defaults_witness :
    (([97] : List Nat).headD 0 ≠ 40 ∧ ([97] : List Nat).headD 0 ≠ 58) ∧
    (clusterHead (some [97])).2.1 = 1 ∧ (clusterHead (some [97])).2.2 = 1 :=
  ⟨⟨by decide, by decide⟩,
    cluster_mapping_defaults.2.2.1 [97] (by decide) (by decide)⟩

theorem consumeCodePoints_decode (n : Nat) :
    ∀ (l : List Nat) (cc : Int),
      consumeCodePoints n (some l) cc
        = (some (utf8ConsumeN n l).1, ((utf8ConsumeN n l).2).getLastD cc) := by
  induction n with
  | zero => intro l cc; rfl
  | succ m ih =>
    intro l cc
    by_cases h : l.isEmpty
    · have hl : l = [] := by
        cases l with
        | nil => rfl
        | cons a as => simp at h
      subst hl
      rw [show consumeCodePoints (m + 1) (some []) cc
            = consumeCodePoints m (some []) cc from rfl]
      rw [consumeCodePoints_stuck m (some []) cc (Or.inr rfl)]
      simp [utf8ConsumeN]
    · simp only [consumeCodePoints, utf8ConsumeN, h, Bool.false_eq_true, if_false]
      rw [ih]
      cases hcs : (utf8ConsumeN m (List.drop (xps_utf8_to_ucs l).2 l)).2 <;>
        simp [hcs, List.getLast?_cons]

/-- C9: when the Unicode string is absent or already exhausted, the char
code recorded with every placed glyph is the question mark (63); with no
Indices string the glyph index is derived from that char code through the
font's encoding; and the cluster decode loop leaves in `char_code` the
last decoded code point (all glyphs of a cluster share that single
value, as the cluster loop threads one `char_code` through them). -/
theorem glyph_char_code_fallback (font : FontModel) (size : ℚ) (sw : Bool) (bl : Int) :
    (∀ (fuel : Nat) (us is : Option (List Nat)) (x y : ℚ),
        us = none ∨ us = some [] →
        ∀ g ∈ glyphsLoop font size sw bl fuel us is x y, g.char_code = 63)
  ∧ (∀ (n : Nat) (cc : Int) (x y : ℚ),
        ∀ g ∈ (glyphLoop font size sw bl n none cc x y).2.2,
          g.char_code = cc ∧ g.glyph_index = font.encode cc)
  ∧ (∀ (n : Nat) (l : List Nat) (cc : Int),
        consumeCodePoints n (some l) cc
          = (some (utf8ConsumeN n l).1, ((utf8ConsumeN n l).2).getLastD cc)) := by
  refine ⟨?_, ?_, fun n l cc => consumeCodePoints_decode n l cc⟩
  · intro fuel
    induction fuel with
    | zero =>
      intro us is x y hus g hg
      simp [glyphsLoop] at hg
    | succ m ih =>
      intro us is x y hus g hg
      simp only [glyphsLoop] at hg
      by_cases hcond : (usLive us || isLive is) = true
      · rw [if_pos hcond] at hg
        rw [consumeCodePoints_stuck _ us 63 hus] at hg
        rcases List.mem_append.mp hg with hg1 | hg2
        · exact glyphLoop_char_code font size sw bl _ _ 63 _ y g hg1
        · exact ih us _ _ y hus g hg2
      · rw [if_neg hcond] at hg
        cases hg
  · intro n cc x y g hg
    exact (glyphLoop_none font size sw bl n cc x y).2 g hg

/-- Font used by the C9 witness. -/
def w9font : FontModel := ⟨fun c => c + 1, fun _ => 1, fun _ => 0, fun _ => 0⟩

theorem glyph_char_code_fallback_witness :
    (some ([] : List Nat) = none ∨ some ([] : List Nat) = some []) ∧
    (⟨5, 63, 0, 0⟩ : PlacedGlyph) ∈ glyphsLoop w9font 10 false 0 1 (some []) (some [53]) 0 0 ∧
    PlacedGlyph.char_code ⟨5, 63, 0, 0⟩ = 63 := by
  have hlist : glyphsLoop w9font 10 false 0 1 (some []) (some [53]) 0 0
      = [⟨5, 63, 0, 0⟩] := by
    simp [glyphsLoop, usLive, isLive, clusterHead, consumeCodePoints, glyphLoop,
      glyphStep, placeGlyph, xps_parse_glyph_index, xps_parse_digits, parseDigitsGo,
      xps_parse_cluster_mapping, w9font]
  refine ⟨Or.inr rfl, ?_, ?_⟩
  · rw [hlist]
    exact List.mem_singleton_self _
  · exact (glyph_char_code_fallback w9font 10 false 0).1 1 (some []) (some [53]) 0 0
      (Or.inr rfl) ⟨5, 63, 0, 0⟩ (by rw [hlist]; exact List.mem_singleton_self _)

/-- C10: a UnicodeString whose first two bytes are the brace pair 0x7b
0x7d has exactly those two bytes skipped, and only the remainder is
decoded (with no second skip), so "\x7b\x7d" contributes no code points
while "\x7b\x7dAB" decodes exactly the code points of "AB". -/
theorem unicode_brace_skip (font : FontModel) (size ox oy : ℚ) (sw : Bool) (bl : Int) :
    (∀ (rest : List Nat) (is : Option (List Nat)) (f : Nat),
        xps_parse_glyphs_imp font size ox oy sw bl is (some (123 :: 125 :: rest)) f
          = some (glyphsLoop font size sw bl f (some rest) is ox oy))
  ∧ (∀ f, xps_parse_glyphs_imp font size ox oy sw bl none (some [123, 125]) f = some [])
  ∧ (∀ f, xps_parse_glyphs_imp font size ox oy sw bl none (some [123, 125, 65, 66]) f
      = xps_parse_glyphs_imp font size ox oy sw bl none (some [65, 66]) f) := by
  have h1 : ∀ (rest : List Nat) (is : Option (List Nat)) (f : Nat),
      xps_parse_glyphs_imp font size ox oy sw bl is (some (123 :: 125 :: rest)) f
        = some (glyphsLoop font size sw bl f (some rest) is ox oy) := by
    intro rest is f
    cases is <;> simp [xps_parse_glyphs_imp]
  refine ⟨h1, fun f => ?_, fun f => ?_⟩
  · rw [show ([123, 125] : List Nat) = 123 :: 125 :: [] from rfl, h1]
    exact congrArg some (glyphsLoop_done font size sw bl f ox oy)
  · rw [show ([123, 125, 65, 66] : List Nat) = 123 :: 125 :: [65, 66] from rfl, h1]
    simp [xps_parse_glyphs_imp]
